import Mathlib

/-!
Verification of the training script `train_mrc.py` (HyeonKyu Lee/code) of the
`p3-mrc-team-ikyo` repository.

The script is a question-answering training loop.  Its pure control logic is
embedded shallowly below:

* logit values are modelled as `Int` — `create_and_fill_np_array` only moves
  logit values around, it never computes with them;
* Python floats used for probabilities, losses and metrics are modelled as `ℚ`;
* the random draws of `random.randrange` / `random.random` are modelled by
  explicit oracle parameters;
* fallible code (Python exceptions) returns `Option` / `Except`;
* external library collaborators (the model, `nn.CrossEntropyLoss`, the file
  system, `wandb`) are abstract parameters or recorded events.
-/

namespace TrainMRC

/-! ### Logit reassembly: `create_and_fill_np_array` (train_mrc.py 165-179) -/

/-- Numpy row assignment `row[:cols] = src` with `cols = src.length`: the first
`src.length` entries of `old` are replaced by `src`, the remaining entries are
kept. -/
def assignRow (old src : List Int) : List Int :=
  src ++ old.drop src.length

/-- Numpy block assignment `mat[s : s + ol.length, :cols] = ol`: row `k` of
`ol` is written into row `s + k` of `mat` (columns `0 ..< cols`), every other
row of `mat` is kept. -/
def writeBlock : List (List Int) → Nat → List (List Int) → List (List Int)
  | [], _, _ => []
  | row :: mrest, 0, [] => row :: mrest
  | row :: mrest, 0, src :: orest => assignRow row src :: writeBlock mrest 0 orest
  | row :: mrest, s+1, ol => row :: writeBlock mrest s ol

/-- `np.full((n, m), v)` as a list of rows. -/
def npFull (n m : Nat) (v : Int) : List (List Int) :=
  List.replicate n (List.replicate m v)

/-- One iteration of the loop of `create_and_fill_np_array`: the accumulator is
the pair `(logits_concat, step)`; the two numpy slice assignments of the
`if step + batch_size < len(dataset)` / `else` branches are both block writes
at row `step`, the `else` branch clipping the source to `len(dataset) - step`
rows. -/
def fillStep (n : Nat) (acc : List (List Int) × Nat) (output_logit : List (List Int)) :
    List (List Int) × Nat :=
  if acc.2 + output_logit.length < n then
    (writeBlock acc.1 acc.2 output_logit, acc.2 + output_logit.length)
  else
    (writeBlock acc.1 acc.2 (output_logit.take (n - acc.2)), acc.2 + output_logit.length)

/-- `create_and_fill_np_array(start_or_end_logits, dataset, max_len)`
(train_mrc.py 165-179); `dataset_len` stands for `len(dataset)`. -/
def create_and_fill_np_array (start_or_end_logits : List (List (List Int)))
    (dataset_len max_len : Nat) : List (List Int) :=
  (start_or_end_logits.foldl (fillStep dataset_len)
    (npFull dataset_len max_len (-100), 0)).1

/-- Number of columns (`shape[1]`) of a rectangular batch. -/
def colsOf (b : List (List Int)) : Nat := (b.headD []).length

/-- Total number of rows of a list of batches. -/
def sizeSum (bs : List (List (List Int))) : Nat := (bs.map List.length).sum

/-- Value of the `step` cursor just before batch `i` is processed. -/
def cursorAt (bs : List (List (List Int))) (i : Nat) : Nat := sizeSum (bs.take i)

/-- Cell `(r, c)` of a row-list matrix. -/
def cell (m : List (List Int)) (r c : Nat) : Option Int :=
  m[r]?.bind fun row => row[c]?

theorem assignRow_length (old src : List Int) :
    (assignRow old src).length = max old.length src.length := by
  simp [assignRow]; omega

theorem assignRow_getElem (old src : List Int) (j : Nat) :
    (assignRow old src)[j]? = if j < src.length then src[j]? else old[j]? := by
  unfold assignRow
  rw [List.getElem?_append]
  split
  · rfl
  · rw [List.getElem?_drop]
    congr 1
    omega

theorem writeBlock_length (mat : List (List Int)) (s : Nat) (ol : List (List Int)) :
    (writeBlock mat s ol).length = mat.length := by
  induction mat generalizing s ol with
  | nil => simp [writeBlock]
  | cons row mrest ih =>
    cases s with
    | zero =>
      cases ol with
      | nil => simp [writeBlock]
      | cons src orest => simp [writeBlock, ih]
    | succ s => simp [writeBlock, ih]

theorem writeBlock_getElem_lt (mat : List (List Int)) (s : Nat) (ol : List (List Int))
    (r : Nat) (h : r < s) :
    (writeBlock mat s ol)[r]? = mat[r]? := by
  induction mat generalizing s ol r with
  | nil => simp [writeBlock]
  | cons row mrest ih =>
    cases s with
    | zero => omega
    | succ s =>
      cases r with
      | zero => simp [writeBlock]
      | succ r => simpa [writeBlock] using ih s ol r (by omega)

theorem writeBlock_getElem_ge (mat : List (List Int)) (s : Nat) (ol : List (List Int))
    (r : Nat) (h : s + ol.length ≤ r) :
    (writeBlock mat s ol)[r]? = mat[r]? := by
  induction mat generalizing s ol r with
  | nil => simp [writeBlock]
  | cons row mrest ih =>
    cases s with
    | zero =>
      cases ol with
      | nil => rfl
      | cons src orest =>
        cases r with
        | zero => simp at h
        | succ r =>
          simpa [writeBlock] using ih 0 orest r (by simp at h; omega)
    | succ s =>
      cases r with
      | zero => omega
      | succ r => simpa [writeBlock] using ih s ol r (by omega)

theorem writeBlock_getElem_mid (mat : List (List Int)) (s : Nat) (ol : List (List Int))
    (k : Nat) (row : List Int) (hk : ol[k]? = some row) :
    (writeBlock mat s ol)[s + k]? = (mat[s + k]?).map (fun old => assignRow old row) := by
  induction mat generalizing s ol k with
  | nil => simp [writeBlock]
  | cons mrow mrest ih =>
    cases s with
    | zero =>
      cases ol with
      | nil => simp at hk
      | cons src orest =>
        cases k with
        | zero =>
          simp at hk
          subst hk
          simp [writeBlock]
        | succ k =>
          simp only [List.getElem?_cons_succ] at hk
          simpa [writeBlock] using ih 0 orest k hk
    | succ s =>
      have hidx : s + 1 + k = (s + k) + 1 := by omega
      rw [hidx]
      simpa [writeBlock] using ih s ol k hk

theorem writeBlock_row_length (mat : List (List Int)) (s : Nat) (ol : List (List Int))
    (L : Nat) (hmat : ∀ row ∈ mat, row.length = L)
    (hol : ∀ src ∈ ol, src.length ≤ L) :
    ∀ row ∈ writeBlock mat s ol, row.length = L := by
  induction mat generalizing s ol with
  | nil => simp [writeBlock]
  | cons mrow mrest ih =>
    cases s with
    | zero =>
      cases ol with
      | nil =>
        simpa [writeBlock] using hmat
      | cons src orest =>
        intro row hrow
        simp only [writeBlock, List.mem_cons] at hrow
        rcases hrow with h | h
        · subst h
          have h1 : mrow.length = L := hmat mrow (by simp)
          have h2 : src.length ≤ L := hol src (by simp)
          rw [assignRow_length]
          omega
        · exact ih 0 orest (fun r hr => hmat r (by simp [hr]))
            (fun r hr => hol r (by simp [hr])) row h
    | succ s =>
      intro row hrow
      simp only [writeBlock, List.mem_cons] at hrow
      rcases hrow with h | h
      · subst h; exact hmat row (by simp)
      · exact ih s ol (fun r hr => hmat r (by simp [hr])) hol row h

theorem fillStep_snd (n : Nat) (acc : List (List Int) × Nat) (ol : List (List Int)) :
    (fillStep n acc ol).2 = acc.2 + ol.length := by
  unfold fillStep
  split <;> rfl

theorem fillStep_eq_of_le (n : Nat) (acc : List (List Int) × Nat) (ol : List (List Int))
    (h : acc.2 + ol.length ≤ n) :
    fillStep n acc ol = (writeBlock acc.1 acc.2 ol, acc.2 + ol.length) := by
  unfold fillStep
  split
  · rfl
  · have hn : acc.2 + ol.length = n := by omega
    have ht : n - acc.2 = ol.length := by omega
    rw [ht, List.take_length]

theorem sizeSum_cons (b : List (List Int)) (bs : List (List (List Int))) :
    sizeSum (b :: bs) = b.length + sizeSum bs := by
  simp [sizeSum]

theorem cursorAt_zero (bs : List (List (List Int))) : cursorAt bs 0 = 0 := by
  simp [cursorAt, sizeSum]

theorem cursorAt_cons_succ (b : List (List Int)) (bs : List (List (List Int))) (i : Nat) :
    cursorAt (b :: bs) (i + 1) = b.length + cursorAt bs i := by
  simp [cursorAt, List.take_succ_cons, sizeSum]

theorem fold_snd (n : Nat) (bs : List (List (List Int))) (acc : List (List Int) × Nat) :
    (bs.foldl (fillStep n) acc).2 = acc.2 + sizeSum bs := by
  induction bs generalizing acc with
  | nil => simp [sizeSum]
  | cons b rest ih =>
    simp only [List.foldl_cons]
    rw [ih, fillStep_snd, sizeSum_cons]
    omega

theorem fold_fst_length (n : Nat) (bs : List (List (List Int))) (acc : List (List Int) × Nat) :
    (bs.foldl (fillStep n) acc).1.length = acc.1.length := by
  induction bs generalizing acc with
  | nil => rfl
  | cons b rest ih =>
    simp only [List.foldl_cons]
    rw [ih]
    unfold fillStep
    split <;> simp [writeBlock_length]

theorem fold_preserve_lt (n : Nat) (bs : List (List (List Int))) (acc : List (List Int) × Nat)
    (r : Nat) (h : r < acc.2) :
    (bs.foldl (fillStep n) acc).1[r]? = acc.1[r]? := by
  induction bs generalizing acc with
  | nil => rfl
  | cons b rest ih =>
    simp only [List.foldl_cons]
    rw [ih _ (by rw [fillStep_snd]; omega)]
    unfold fillStep
    split <;> exact writeBlock_getElem_lt _ _ _ _ h

theorem fold_row_length (n max_len : Nat) (bs : List (List (List Int)))
    (acc : List (List Int) × Nat)
    (hacc : ∀ row ∈ acc.1, row.length = max_len)
    (hbs : ∀ b ∈ bs, ∀ src ∈ b, src.length ≤ max_len) :
    ∀ row ∈ (bs.foldl (fillStep n) acc).1, row.length = max_len := by
  induction bs generalizing acc with
  | nil => exact hacc
  | cons b rest ih =>
    simp only [List.foldl_cons]
    refine ih _ ?_ (fun b2 hb2 => hbs b2 (by simp [hb2]))
    unfold fillStep
    have hb : ∀ src ∈ b, src.length ≤ max_len := hbs b (by simp)
    split
    · exact writeBlock_row_length _ _ _ _ hacc hb
    · exact writeBlock_row_length _ _ _ _ hacc
        (fun src hsrc => hb src (List.take_subset _ _ hsrc))

theorem npFull_getElem (n m : Nat) (v : Int) (r : Nat) (h : r < n) :
    (npFull n m v)[r]? = some (List.replicate m v) := by
  simp [npFull, List.getElem?_replicate, h]

/-- Cell-level characterisation of the reassembly fold: starting from a matrix
whose rows at indices `≥ s` are all `-100`-filled, batch `i` ends up at rows
`s + cursorAt bs i + k`, its own columns holding its values and every further
column still holding `-100`. -/
theorem fold_cell (n max_len : Nat) (bs : List (List (List Int)))
    (mat : List (List Int)) (s : Nat)
    (hsum : s + sizeSum bs = n)
    (hmat : ∀ r, s ≤ r → r < n → mat[r]? = some (List.replicate max_len (-100))) :
    ∀ i batch k row j, bs[i]? = some batch → batch[k]? = some row → j < max_len →
      cell (bs.foldl (fillStep n) (mat, s)).1 (s + cursorAt bs i + k) j
        = if j < row.length then row[j]? else some (-100) := by
  induction bs generalizing mat s with
  | nil => intro i batch k row j hi; simp at hi
  | cons b rest ih =>
    intro i batch k row j hi hk hj
    have hsum' : s + b.length ≤ n := by
      rw [sizeSum_cons] at hsum; omega
    simp only [List.foldl_cons, fillStep_eq_of_le n (mat, s) b hsum']
    cases i with
    | zero =>
      simp only [List.getElem?_cons_zero, Option.some.injEq] at hi
      subst hi
      have hkb : k < b.length := by
        by_contra hc
        rw [List.getElem?_eq_none (by omega)] at hk
        exact Option.noConfusion hk
      rw [cursorAt_zero]
      have hrow : s + 0 + k < s + b.length := by omega
      unfold cell
      rw [fold_preserve_lt n rest _ _ (by simpa using hrow)]
      have hmid := writeBlock_getElem_mid mat s b k row hk
      have hmat0 : mat[s + k]? = some (List.replicate max_len (-100)) :=
        hmat (s + k) (by omega) (by rw [sizeSum_cons] at hsum; omega)
      simp only [Nat.add_zero]
      rw [hmid, hmat0]
      show (assignRow (List.replicate max_len (-100)) row)[j]? = _
      rw [assignRow_getElem]
      split
      · rfl
      · rw [List.getElem?_replicate, if_pos hj]
    | succ i =>
      simp only [List.getElem?_cons_succ] at hi
      rw [cursorAt_cons_succ]
      have hidx : s + (b.length + cursorAt rest i) + k
          = (s + b.length) + cursorAt rest i + k := by omega
      rw [hidx]
      refine ih _ _ ?_ ?_ i batch k row j hi hk hj
      · rw [sizeSum_cons] at hsum; omega
      · intro r hr1 hr2
        rw [writeBlock_getElem_ge mat s b r hr1]
        exact hmat r (by omega) hr2

/-- C1: for every example count `n ≥ 1`, every `max_len`, and every ordered
sequence of batch logit arrays whose row counts sum to `n` (and whose rows fit
into `max_len` columns, as in the caller, which takes `max_len` to be the
maximum batch width), `create_and_fill_np_array` returns an array with exactly
`n` rows and `max_len` columns — the writes of the final batch being clipped
to `n` rows.  In particular, for a validation set of 5 examples split across
batches of sizes 2, 2, 1 with `max_len = 10`, it produces the expected
`[5, 10]` array whose last row is the single-row batch's logits in that
batch's columns and `-100` beyond that batch's own sequence length. -/
theorem c1_create_and_fill_shape :
    (∀ (n max_len : Nat) (bs : List (List (List Int))),
      1 ≤ n → sizeSum bs = n →
      (∀ b ∈ bs, ∀ src ∈ b, src.length ≤ max_len) →
      (create_and_fill_np_array bs n max_len).length = n ∧
      ∀ row ∈ create_and_fill_np_array bs n max_len, row.length = max_len)
    ∧ create_and_fill_np_array
        [[[1, 2], [3, 4]], [[5, 6, 7], [8, 9, 10]], [[21, 22, 23, 24, 25, 26, 27]]] 5 10
      = [[1, 2, -100, -100, -100, -100, -100, -100, -100, -100],
         [3, 4, -100, -100, -100, -100, -100, -100, -100, -100],
         [5, 6, 7, -100, -100, -100, -100, -100, -100, -100],
         [8, 9, 10, -100, -100, -100, -100, -100, -100, -100],
         [21, 22, 23, 24, 25, 26, 27, -100, -100, -100]] := by
  constructor
  · intro n max_len bs hn hsum hle
    constructor
    · unfold create_and_fill_np_array
      rw [fold_fst_length]
      simp [npFull]
    · unfold create_and_fill_np_array
      refine fold_row_length n max_len bs _ ?_ hle
      intro row hrow
      simp only [npFull] at hrow
      rw [List.eq_of_mem_replicate hrow]
      simp
  · decide

/-- Witness for C1: the universally quantified part applied to a concrete
batch sequence of sizes 2 and 1 with `n = 3`, `max_len = 4`. -/
theorem c1_create_and_fill_shape_witness :
    (create_and_fill_np_array [[[1, 2], [3, 4]], [[5]]] 3 4).length = 3 ∧
    ∀ row ∈ create_and_fill_np_array [[[1, 2], [3, 4]], [[5]]] 3 4, row.length = 4 :=
  c1_create_and_fill_shape.1 3 4 [[[1, 2], [3, 4]], [[5]]]
    (by decide) (by decide) (by decide)

/-- C2: `create_and_fill_np_array` populates rows in strictly increasing,
non-overlapping index ranges that follow the input batch order: the `step`
cursor grows by exactly each batch's size, the final cursor equals the example
count, and batch `i` (rectangular, `colsOf` columns wide) is copied into rows
`[cursorAt bs i, cursorAt bs i + size_i)`, its own columns `[0, colsOf)`
holding its values and every cell in a column at or beyond the batch's own
column count retaining the default fill value `-100`. -/
theorem c2_create_and_fill_blocks (n max_len : Nat) (bs : List (List (List Int)))
    (hsum : sizeSum bs = n)
    (hrect : ∀ b ∈ bs, ∀ row ∈ b, row.length = colsOf b) :
    (∀ (acc : List (List Int) × Nat) (b : List (List Int)),
        (fillStep n acc b).2 = acc.2 + b.length)
    ∧ (bs.foldl (fillStep n) (npFull n max_len (-100), 0)).2 = n
    ∧ (∀ i batch k row j, bs[i]? = some batch → batch[k]? = some row → j < max_len →
        cell (create_and_fill_np_array bs n max_len) (cursorAt bs i + k) j
          = if j < colsOf batch then row[j]? else some (-100)) := by
  refine ⟨fillStep_snd n, ?_, ?_⟩
  · rw [fold_snd]; omega
  · intro i batch k row j hi hk hj
    have hmem : batch ∈ bs := List.getElem?_mem hi
    have hrowmem : row ∈ batch := List.getElem?_mem hk
    have hcols : row.length = colsOf batch := hrect batch hmem row hrowmem
    have hc := fold_cell n max_len bs (npFull n max_len (-100)) 0 (by omega)
      (fun r _ h2 => npFull_getElem n max_len (-100) r h2) i batch k row j hi hk hj
    rw [← hcols]
    simpa [create_and_fill_np_array] using hc

/-- Witness for C2 at a concrete input: two batches of sizes 1 and 1,
`n = 2`, `max_len = 3`; the cell of row 1 (second batch, row 0) at column 2 —
beyond that batch's single column — still holds `-100`. -/
theorem c2_create_and_fill_blocks_witness :
    cell (create_and_fill_np_array [[[1, 2]], [[3]]] 2 3) (cursorAt [[[1, 2]], [[3]]] 1 + 0) 2
      = if 2 < colsOf [[3]] then (([3] : List Int))[2]? else some (-100) :=
  (c2_create_and_fill_blocks 2 3 [[[1, 2]], [[3]]] (by decide) (by decide)).2.2
    1 [[3]] 0 [3] 2 (by decide) (by decide) (by decide)

/-! ### Question masking: `custom_to_mask` (train_mrc.py 182-200) -/

/-- A batch produced by the data collator: a mapping from field name to
fixed-shape tensors sharing the leading (batch) dimension. -/
structure Batch where
  input_ids : List (List Int)
  attention_mask : List (List Int)
  token_type_ids : List (List Int)
  start_positions : List Int
  end_positions : List Int
deriving DecidableEq

/-- `np.where(ids == sep_id)[0][0]` as an `Option`: index of the first
occurrence of the separator token, `none` when there is none (in which case
the Python subscript `[0]` raises `IndexError`). -/
def firstSepIdx (sep_id : Int) : List Int → Option Nat
  | [] => none
  | x :: xs => if x = sep_id then some 0 else (firstSepIdx sep_id xs).map (· + 1)

/-- Body of the per-example loop of `custom_to_mask`: find the first separator
index `q_ids`; draw `random.randrange(1, q_ids)` — modelled by `1 + c % (q_ids
- 1)`, which ranges over exactly `[1, q_ids)` — and overwrite that position
with the mask token.  `none` models the Python exceptions: `IndexError` when
no separator exists, `ValueError` from `randrange` when `q_ids ≤ 1`. -/
def mask_one (sep_id mask_id : Int) (c : Nat) (ids : List Int) : Option (List Int) :=
  match firstSepIdx sep_id ids with
  | none => none
  | some q => if 1 < q then some (ids.set (1 + c % (q - 1)) mask_id) else none

/-- The in-place state of `batch["input_ids"]` when the loop of
`custom_to_mask` ends: processes rows left to right (row `i` uses random draw
`choices i`); on the first failing row the loop stops with `false` and the
remaining rows unchanged — exactly the state the Python exception leaves
behind. -/
def maskRowsState (sep_id mask_id : Int) (choices : Nat → Nat) :
    Nat → List (List Int) → List (List Int) × Bool
  | _, [] => ([], true)
  | i, ids :: rest =>
    match mask_one sep_id mask_id (choices i) ids with
    | none => (ids :: rest, false)
    | some ids2 =>
      let r := maskRowsState sep_id mask_id choices (i + 1) rest
      (ids2 :: r.1, r.2)

/-- `custom_to_mask(batch, tokenizer)` (train_mrc.py 182-200): masks one
random question token of each example's `input_ids` in place and returns the
batch; `none` when an example raises. -/
def custom_to_mask (sep_id mask_id : Int) (choices : Nat → Nat) (b : Batch) : Option Batch :=
  let r := maskRowsState sep_id mask_id choices 0 b.input_ids
  if r.2 then some { b with input_ids := r.1 } else none

/-- Boolean guard: the row has a separator and its first occurrence is at
index `≥ 2`, so the question span has an interior token to mask. -/
def goodRowB (sep_id : Int) (ids : List Int) : Bool :=
  match firstSepIdx sep_id ids with
  | some q => 2 ≤ q
  | none => false

/-- `new` is `old` with exactly the one position `idx ∈ [1, q)` overwritten by
the mask token; every other position is unchanged. -/
def maskedOnce (mask_id : Int) (q : Nat) (old new : List Int) : Prop :=
  ∃ idx, 1 ≤ idx ∧ idx < q ∧ idx < old.length ∧ new = old.set idx mask_id ∧
    new[idx]? = some mask_id ∧ ∀ j, j ≠ idx → new[j]? = old[j]?

theorem firstSepIdx_lt_length (sep_id : Int) (ids : List Int) (q : Nat)
    (h : firstSepIdx sep_id ids = some q) : q < ids.length := by
  induction ids generalizing q with
  | nil => simp [firstSepIdx] at h
  | cons x xs ih =>
    unfold firstSepIdx at h
    split at h
    · simp only [Option.some.injEq] at h
      rw [← h]
      simp
    · cases hq : firstSepIdx sep_id xs with
      | none => rw [hq] at h; simp at h
      | some q2 =>
        rw [hq] at h
        simp at h
        have := ih q2 hq
        simp [List.length_cons]
        omega

theorem goodRowB_spec (sep_id : Int) (ids : List Int) (h : goodRowB sep_id ids = true) :
    ∃ q, firstSepIdx sep_id ids = some q ∧ 2 ≤ q := by
  unfold goodRowB at h
  rcases hq : firstSepIdx sep_id ids with _ | q
  · rw [hq] at h
    exact absurd h (by simp)
  · rw [hq] at h
    exact ⟨q, rfl, by simpa using h⟩

theorem mask_one_good (sep_id mask_id : Int) (c : Nat) (ids : List Int)
    (h : goodRowB sep_id ids = true) :
    ∃ q new, firstSepIdx sep_id ids = some q ∧ 2 ≤ q ∧
      mask_one sep_id mask_id c ids = some new ∧ maskedOnce mask_id q ids new := by
  obtain ⟨q, hq, h2⟩ := goodRowB_spec sep_id ids h
  have hlen : q < ids.length := firstSepIdx_lt_length sep_id ids q hq
  have hmod : c % (q - 1) < q - 1 := Nat.mod_lt c (by omega)
  refine ⟨q, ids.set (1 + c % (q - 1)) mask_id, hq, h2, ?_, ?_⟩
  · unfold mask_one
    rw [hq]
    show (if 1 < q then some (ids.set (1 + c % (q - 1)) mask_id) else none) = _
    rw [if_pos (show 1 < q by omega)]
  · refine ⟨1 + c % (q - 1), by omega, by omega, by omega, rfl, ?_, ?_⟩
    · exact List.getElem?_set_self (by omega)
    · intro j hj
      exact List.getElem?_set_ne (by omega)

theorem maskRowsState_good (sep_id mask_id : Int) (choices : Nat → Nat)
    (rows : List (List Int)) :
    ∀ i0, (∀ row ∈ rows, goodRowB sep_id row = true) →
      (maskRowsState sep_id mask_id choices i0 rows).2 = true ∧
      (maskRowsState sep_id mask_id choices i0 rows).1.length = rows.length ∧
      ∀ i, i < rows.length →
        ∃ q old new, rows[i]? = some old ∧
          (maskRowsState sep_id mask_id choices i0 rows).1[i]? = some new ∧
          firstSepIdx sep_id old = some q ∧ maskedOnce mask_id q old new := by
  induction rows with
  | nil => intro i0 _; refine ⟨rfl, rfl, ?_⟩; intro i hi; simp at hi
  | cons r rest ih =>
    intro i0 hgood
    obtain ⟨q, new, hq, h2, hmo, hmask⟩ :=
      mask_one_good sep_id mask_id (choices i0) r (hgood r (by simp))
    obtain ⟨hok, hlen, hcells⟩ := ih (i0 + 1) (fun row hrow => hgood row (by simp [hrow]))
    unfold maskRowsState
    rw [hmo]
    refine ⟨hok, by simpa using hlen, ?_⟩
    intro i hi
    cases i with
    | zero => exact ⟨q, r, new, by simp, by simp, hq, hmask⟩
    | succ i =>
      obtain ⟨q2, old2, new2, ho, hn, hfs, hmk⟩ := hcells i (by simpa using hi)
      exact ⟨q2, old2, new2, by simpa using ho, by simpa using hn, hfs, hmk⟩

/-- Full specification of `custom_to_mask` on a batch whose every example has
a maskable question span. -/
theorem custom_to_mask_good (sep_id mask_id : Int) (choices : Nat → Nat) (b : Batch)
    (hgood : ∀ row ∈ b.input_ids, goodRowB sep_id row = true) :
    ∃ b2, custom_to_mask sep_id mask_id choices b = some b2 ∧
      b2.attention_mask = b.attention_mask ∧
      b2.token_type_ids = b.token_type_ids ∧
      b2.start_positions = b.start_positions ∧
      b2.end_positions = b.end_positions ∧
      b2.input_ids.length = b.input_ids.length ∧
      ∀ i, i < b.input_ids.length →
        ∃ q old new, b.input_ids[i]? = some old ∧ b2.input_ids[i]? = some new ∧
          firstSepIdx sep_id old = some q ∧ maskedOnce mask_id q old new := by
  obtain ⟨hok, hlen, hcells⟩ := maskRowsState_good sep_id mask_id choices b.input_ids 0 hgood
  refine ⟨{ b with input_ids := (maskRowsState sep_id mask_id choices 0 b.input_ids).1 },
    ?_, rfl, rfl, rfl, rfl, hlen, hcells⟩
  simp [custom_to_mask, hok]

/-- Boolean guard for the failing rows: no separator at all (`IndexError` on
`sep_idx[0][0]`) or first separator at index `≤ 1` (empty range for
`random.randrange(1, q_ids)`, `ValueError`). -/
def badRowB (sep_id : Int) (ids : List Int) : Bool :=
  match firstSepIdx sep_id ids with
  | none => true
  | some q => q ≤ 1

theorem mask_one_bad (sep_id mask_id : Int) (c : Nat) (ids : List Int)
    (h : badRowB sep_id ids = true) :
    mask_one sep_id mask_id c ids = none := by
  unfold badRowB at h
  unfold mask_one
  rcases hq : firstSepIdx sep_id ids with _ | q
  · rfl
  · rw [hq] at h
    have h1 : q ≤ 1 := by simpa using h
    show (if 1 < q then some (ids.set (1 + c % (q - 1)) mask_id) else none) = none
    rw [if_neg (by omega)]

theorem maskRowsState_bad (sep_id mask_id : Int) (choices : Nat → Nat)
    (pre : List (List Int)) :
    ∀ i0 bad rest, (∀ row ∈ pre, goodRowB sep_id row = true) →
      badRowB sep_id bad = true →
      (maskRowsState sep_id mask_id choices i0 (pre ++ bad :: rest)).2 = false ∧
      ∃ pre2, pre2.length = pre.length ∧
        (maskRowsState sep_id mask_id choices i0 (pre ++ bad :: rest)).1
          = pre2 ++ bad :: rest ∧
        ∀ i, i < pre.length →
          ∃ q old new, pre[i]? = some old ∧ pre2[i]? = some new ∧
            firstSepIdx sep_id old = some q ∧ maskedOnce mask_id q old new := by
  induction pre with
  | nil =>
    intro i0 bad rest _ hbad
    have hb := mask_one_bad sep_id mask_id (choices i0) bad hbad
    simp only [List.nil_append]
    unfold maskRowsState
    rw [hb]
    exact ⟨rfl, [], rfl, rfl, fun i hi => by simp at hi⟩
  | cons g pre ih =>
    intro i0 bad rest hgood hbad
    obtain ⟨q, new, hq, _, hmo, hmask⟩ :=
      mask_one_good sep_id mask_id (choices i0) g (hgood g (by simp))
    obtain ⟨hok, pre2, hlen, heq, hcells⟩ :=
      ih (i0 + 1) bad rest (fun r hr => hgood r (by simp [hr])) hbad
    simp only [List.cons_append]
    unfold maskRowsState
    rw [hmo]
    refine ⟨hok, new :: pre2, by simpa using hlen, by simpa using heq, ?_⟩
    intro i hi
    cases i with
    | zero => exact ⟨q, g, new, by simp, by simp, hq, hmask⟩
    | succ i =>
      obtain ⟨q2, old2, new2, ho, hn, hfs, hmk⟩ := hcells i (by simpa using hi)
      exact ⟨q2, old2, new2, by simpa using ho, by simpa using hn, hfs, hmk⟩

/-- The masking decision of `training_per_step` (train_mrc.py 224-247):
`mask_p = random.random()` is one draw `p ∈ [0, 1)` made for the whole batch;
`custom_to_mask` is applied to the batch exactly when `p < mask_props = 0.8`.
The value returned is the batch that reaches `model(**batch)`; the model
call, the loss and the optimizer step are external library collaborators,
outside this embedding. -/
def training_per_step_mask (sep_id mask_id : Int) (choices : Nat → Nat) (p : ℚ)
    (b : Batch) : Option Batch :=
  if p < (0.8 : ℚ) then custom_to_mask sep_id mask_id choices b else some b

/-- C3: on a batch whose every example's `input_ids` contains the separator
token with first occurrence at index `≥ 2`, `custom_to_mask` succeeds,
leaves `attention_mask`, `token_type_ids`, `start_positions` and
`end_positions` unchanged, and overwrites in each example's `input_ids`
exactly one position — at an index in `[1, first separator index)`, i.e.
strictly inside the question span — with the mask-token id, leaving every
other position of `input_ids` unchanged. -/
theorem c3_custom_to_mask_masks_question (sep_id mask_id : Int) (choices : Nat → Nat)
    (b : Batch) (hgood : ∀ row ∈ b.input_ids, goodRowB sep_id row = true) :
    ∃ b2, custom_to_mask sep_id mask_id choices b = some b2 ∧
      b2.attention_mask = b.attention_mask ∧
      b2.token_type_ids = b.token_type_ids ∧
      b2.start_positions = b.start_positions ∧
      b2.end_positions = b.end_positions ∧
      b2.input_ids.length = b.input_ids.length ∧
      ∀ i, i < b.input_ids.length →
        ∃ q old new, b.input_ids[i]? = some old ∧ b2.input_ids[i]? = some new ∧
          firstSepIdx sep_id old = some q ∧ maskedOnce mask_id q old new :=
  custom_to_mask_good sep_id mask_id choices b hgood

/-- Witness for C3: a single-example batch `[5, 6, 3, 7]` with separator 3
(first occurrence at index 2) and mask token 99. -/
theorem c3_custom_to_mask_masks_question_witness :
    ∃ b2, custom_to_mask 3 99 (fun _ => 0)
        ⟨[[5, 6, 3, 7]], [[1, 1, 1, 1]], [[0, 0, 0, 0]], [2], [3]⟩ = some b2 ∧
      b2.attention_mask = [[1, 1, 1, 1]] ∧
      b2.token_type_ids = [[0, 0, 0, 0]] ∧
      b2.start_positions = [2] ∧
      b2.end_positions = [3] ∧
      b2.input_ids.length = 1 ∧
      ∀ i, i < 1 →
        ∃ q old new, [[5, 6, 3, 7]][i]? = some old ∧ b2.input_ids[i]? = some new ∧
          firstSepIdx 3 old = some q ∧ maskedOnce 99 q old new :=
  c3_custom_to_mask_masks_question 3 99 (fun _ => 0)
    ⟨[[5, 6, 3, 7]], [[1, 1, 1, 1]], [[0, 0, 0, 0]], [2], [3]⟩ (by decide)

/-- C6: in `training_per_step` the masking augmentation is decided per batch,
not per example: one draw `p` serves the whole batch, `custom_to_mask` is
applied to every example of the batch exactly when `p < 0.8`, and when
`p ≥ 0.8` the batch's `input_ids` reach the model unmodified. -/
theorem c6_mask_decision_per_batch (sep_id mask_id : Int) (choices : Nat → Nat)
    (p : ℚ) (b : Batch) :
    (¬ p < (0.8 : ℚ) → training_per_step_mask sep_id mask_id choices p b = some b) ∧
    (p < (0.8 : ℚ) →
      training_per_step_mask sep_id mask_id choices p b
        = custom_to_mask sep_id mask_id choices b) ∧
    (p < (0.8 : ℚ) → (∀ row ∈ b.input_ids, goodRowB sep_id row = true) →
      ∃ b2, training_per_step_mask sep_id mask_id choices p b = some b2 ∧
        b2.input_ids.length = b.input_ids.length ∧
        ∀ i, i < b.input_ids.length →
          ∃ q old new, b.input_ids[i]? = some old ∧ b2.input_ids[i]? = some new ∧
            firstSepIdx sep_id old = some q ∧ maskedOnce mask_id q old new) := by
  refine ⟨fun h => by simp [training_per_step_mask, h],
    fun h => by simp [training_per_step_mask, h],
    fun h hgood => ?_⟩
  obtain ⟨b2, hb2, _, _, _, _, hlen, hcells⟩ :=
    custom_to_mask_good sep_id mask_id choices b hgood
  exact ⟨b2, by simp [training_per_step_mask, h, hb2], hlen, hcells⟩

/-- Witness for C6: with `p = 9/10 ≥ 0.8` the batch reaches the model
unmodified. -/
theorem c6_mask_decision_per_batch_witness :
    training_per_step_mask 3 99 (fun _ => 0) (9 / 10)
        ⟨[[5, 6, 3, 7]], [[1, 1, 1, 1]], [[0, 0, 0, 0]], [2], [3]⟩
      = some ⟨[[5, 6, 3, 7]], [[1, 1, 1, 1]], [[0, 0, 0, 0]], [2], [3]⟩ :=
  (c6_mask_decision_per_batch 3 99 (fun _ => 0) (9 / 10)
    ⟨[[5, 6, 3, 7]], [[1, 1, 1, 1]], [[0, 0, 0, 0]], [2], [3]⟩).1 (by norm_num)

/-- C10: on a batch containing an example whose first separator index is
`≤ 1` or whose `input_ids` has no separator at all, `custom_to_mask` raises
(returns `none`) instead of skipping that example; the failure is not atomic:
when the loop stops, the examples before the offending one have already had
exactly one question position of their `input_ids` overwritten in place,
while the offending example and the ones after it are unchanged. -/
theorem c10_custom_to_mask_error_not_atomic (sep_id mask_id : Int)
    (choices : Nat → Nat) (b : Batch) (pre : List (List Int)) (bad : List Int)
    (rest : List (List Int))
    (hsplit : b.input_ids = pre ++ bad :: rest)
    (hgood : ∀ row ∈ pre, goodRowB sep_id row = true)
    (hbad : badRowB sep_id bad = true) :
    custom_to_mask sep_id mask_id choices b = none ∧
    (maskRowsState sep_id mask_id choices 0 b.input_ids).2 = false ∧
    ∃ pre2, pre2.length = pre.length ∧
      (maskRowsState sep_id mask_id choices 0 b.input_ids).1 = pre2 ++ bad :: rest ∧
      ∀ i, i < pre.length →
        ∃ q old new, pre[i]? = some old ∧ pre2[i]? = some new ∧
          firstSepIdx sep_id old = some q ∧ maskedOnce mask_id q old new := by
  obtain ⟨hfail, hstate⟩ :=
    maskRowsState_bad sep_id mask_id choices pre 0 bad rest hgood hbad
  rw [hsplit]
  exact ⟨by simp [custom_to_mask, hsplit, hfail], hfail, hstate⟩

/-- Witness for C10: a two-example batch whose first example is maskable and
whose second example has its separator at index 0. -/
theorem c10_custom_to_mask_error_not_atomic_witness :
    custom_to_mask 3 99 (fun _ => 0)
        ⟨[[5, 6, 3, 7], [3, 8]], [], [], [], []⟩ = none :=
  (c10_custom_to_mask_error_not_atomic 3 99 (fun _ => 0)
    ⟨[[5, 6, 3, 7], [3, 8]], [], [], [], []⟩ [[5, 6, 3, 7]] [3, 8] []
    rfl (by decide) (by decide)).1

/-! ### Custom span loss: `cal_loss` (train_mrc.py 202-221) -/

/-- An integer label tensor of one or two dimensions (`start_positions` /
`end_positions` arrive as shape `[batch]`, or `[batch, 1]` on multi-GPU). -/
inductive ITensor where
  | t1 : List Int → ITensor
  | t2 : List (List Int) → ITensor
deriving DecidableEq

/-- `len(t.size())`. -/
def ITensor.dims : ITensor → Nat
  | .t1 _ => 1
  | .t2 _ => 2

/-- `t.squeeze(-1)`: drops the trailing dimension when it has size 1,
otherwise leaves the tensor unchanged. -/
def ITensor.squeezeLast : ITensor → ITensor
  | .t1 xs => .t1 xs
  | .t2 xss => if xss.all (fun r => r.length = 1) then .t1 (xss.map (fun r => r.headD 0))
               else .t2 xss

/-- `torch.clamp_(lo, hi)` on one element. -/
def clampInt (lo hi x : Int) : Int := min (max x lo) hi

/-- `t.clamp_(lo, hi)` applied elementwise. -/
def ITensor.clampAll (lo hi : Int) : ITensor → ITensor
  | .t1 xs => .t1 (xs.map (clampInt lo hi))
  | .t2 xss => .t2 (xss.map (fun r => r.map (clampInt lo hi)))

/-- All elements of the tensor. -/
def ITensor.elems : ITensor → List Int
  | .t1 xs => xs
  | .t2 xss => xss.flatten

/-- `cal_loss(start_positions, end_positions, start_logits, end_logits)`
(train_mrc.py 202-221).  The cross-entropy computation itself is the external
library collaborator `nn.CrossEntropyLoss(ignore_index=i)`, modelled by the
abstract parameter `loss_fct i logits targets`; `cal_loss` squeezes a trailing
singleton dimension from each label tensor of more than one dimension, clamps
the labels into `[0, ignored_index]` where `ignored_index =
start_logits.size(1)`, computes the two losses with that ignored class index,
and returns their mean; it returns `none` when either label tensor is
`None`. -/
def cal_loss (loss_fct : Nat → List (List ℚ) → ITensor → ℚ)
    (start_positions end_positions : Option ITensor)
    (start_logits end_logits : List (List ℚ)) : Option ℚ :=
  match start_positions, end_positions with
  | some sp0, some ep0 =>
    let sp1 := if 1 < sp0.dims then sp0.squeezeLast else sp0
    let ep1 := if 1 < ep0.dims then ep0.squeezeLast else ep0
    let ignored_index : Nat := (start_logits.headD []).length
    let sp2 := sp1.clampAll 0 (ignored_index : Int)
    let ep2 := ep1.clampAll 0 (ignored_index : Int)
    let start_loss := loss_fct ignored_index start_logits sp2
    let end_loss := loss_fct ignored_index end_logits ep2
    some ((start_loss + end_loss) / 2)
  | _, _ => none

theorem clampAll_elems_mem (lo hi : Int) (hle : lo ≤ hi) (t : ITensor) :
    ∀ v ∈ (t.clampAll lo hi).elems, lo ≤ v ∧ hi ≥ v := by
  cases t with
  | t1 xs =>
    intro v hv
    simp only [ITensor.clampAll, ITensor.elems, List.mem_map] at hv
    obtain ⟨x, _, rfl⟩ := hv
    unfold clampInt
    omega
  | t2 xss =>
    intro v hv
    simp only [ITensor.clampAll, ITensor.elems, List.mem_flatten, List.mem_map] at hv
    obtain ⟨r, ⟨r0, _, rfl⟩, hvr⟩ := hv
    simp only [List.mem_map] at hvr
    obtain ⟨x, _, rfl⟩ := hvr
    unfold clampInt
    omega

/-- C4: when both label tensors are present, `cal_loss` squeezes a trailing
singleton dimension from each label tensor of more than one dimension, clamps
both into `[0, L]` where `L = start_logits.size(1)` (every element of the
clamped tensors lies in `[0, L]`, and a `[batch, 1]` tensor is squeezed to a
`[batch]` tensor), hands each to the cross-entropy collaborator independently
with `L` as the ignored class index, and returns the mean
`(start_loss + end_loss) / 2`; when either label is `None` it returns
`None`. -/
theorem c4_cal_loss_structure (loss_fct : Nat → List (List ℚ) → ITensor → ℚ)
    (sp ep : ITensor) (start_logits end_logits : List (List ℚ)) :
    (∀ x, cal_loss loss_fct none x start_logits end_logits = none) ∧
    (∀ x, cal_loss loss_fct x none start_logits end_logits = none) ∧
    cal_loss loss_fct (some sp) (some ep) start_logits end_logits
      = some (((loss_fct (start_logits.headD []).length start_logits
            ((if 1 < sp.dims then sp.squeezeLast else sp).clampAll 0
              ((start_logits.headD []).length : Int)))
          + (loss_fct (start_logits.headD []).length end_logits
            ((if 1 < ep.dims then ep.squeezeLast else ep).clampAll 0
              ((start_logits.headD []).length : Int)))) / 2) ∧
    (∀ v ∈ ((if 1 < sp.dims then sp.squeezeLast else sp).clampAll 0
        ((start_logits.headD []).length : Int)).elems,
      0 ≤ v ∧ v ≤ ((start_logits.headD []).length : Int)) ∧
    (∀ v ∈ ((if 1 < ep.dims then ep.squeezeLast else ep).clampAll 0
        ((start_logits.headD []).length : Int)).elems,
      0 ≤ v ∧ v ≤ ((start_logits.headD []).length : Int)) ∧
    (∀ xss : List (List Int), (∀ r ∈ xss, r.length = 1) →
      (ITensor.t2 xss).squeezeLast = ITensor.t1 (xss.map (fun r => r.headD 0))) := by
  refine ⟨?_, ?_, rfl, ?_, ?_, ?_⟩
  · intro x; cases x <;> rfl
  · intro x; cases x <;> rfl
  · intro v hv
    have := clampAll_elems_mem 0 ((start_logits.headD []).length : Int) (by positivity)
      (if 1 < sp.dims then sp.squeezeLast else sp) v hv
    omega
  · intro v hv
    have := clampAll_elems_mem 0 ((start_logits.headD []).length : Int) (by positivity)
      (if 1 < ep.dims then ep.squeezeLast else ep) v hv
    omega
  · intro xss hall
    unfold ITensor.squeezeLast
    show (if (xss.all fun r => decide (r.length = 1)) = true
        then ITensor.t1 (List.map (fun r => r.headD 0) xss) else ITensor.t2 xss) = _
    rw [if_pos]
    simpa using hall

/-- Witness for C4: all parts at concrete values — a `[2, 1]` start label
tensor gets squeezed, and labels `-5` and `7` are clamped into `[0, 2]`. -/
theorem c4_cal_loss_structure_witness :
    cal_loss (fun _ _ _ => 1) (some (ITensor.t2 [[-5], [7]])) (some (ITensor.t1 [0, 1]))
        [[1, 2], [3, 4]] [[5, 6], [7, 8]]
      = some ((((fun (_ : Nat) (_ : List (List ℚ)) (_ : ITensor) => (1 : ℚ)) 2 [[1, 2], [3, 4]]
            (ITensor.t1 [0, 2]))
          + ((fun (_ : Nat) (_ : List (List ℚ)) (_ : ITensor) => (1 : ℚ)) 2 [[5, 6], [7, 8]]
            (ITensor.t1 [0, 1]))) / 2) ∧
    (0 ≤ (2 : Int) ∧ (2 : Int) ≤ 2) := by
  have h := c4_cal_loss_structure (fun _ _ _ => 1)
    (ITensor.t2 [[-5], [7]]) (ITensor.t1 [0, 1]) [[1, 2], [3, 4]] [[5, 6], [7, 8]]
  refine ⟨?_, h.2.2.2.1 2 (by decide)⟩
  have h3 := h.2.2.1
  simpa using h3

/-! ### Dataset selection: `get_data` (train_mrc.py 98-139) -/

/-- The file-system collaborator: `os.path.isdir` / `os.path.isfile`. -/
structure FileSystem where
  isdir : String → Bool
  isfile : String → Bool

/-- Which dataset-loading action `get_data` takes before tokenisation:
load a saved dataset directory, load a pickle, have `make_custom_dataset`
generate the pickle, or download a named dataset. -/
inductive DataSource where
  | loadFromDisk : String → DataSource
  | loadPickle : String → DataSource
  | makeCustom : String → DataSource
  | loadDataset : String → DataSource
deriving DecidableEq

/-- The branch structure of `get_data(data_args, training_args, tokenizer)`
(train_mrc.py 98-139), keyed on `data_args.dataset_name`; `Except.error`
models the two `raise Exception(...)` statements with their messages. -/
def get_data (fs : FileSystem) (dataset_name : String) : Except String DataSource :=
  if dataset_name = "basic" then
    if fs.isdir "/opt/ml/input/data/train_dataset" then
      Except.ok (DataSource.loadFromDisk "/opt/ml/input/data/train_dataset")
    else
      Except.error "Set the data path to \x27/opt/ml/input/data/.\x27"
  else if dataset_name = "preprocessed" then
    if fs.isfile "/opt/ml/input/data/preprocess_train.pkl" then
      Except.ok (DataSource.loadPickle "/opt/ml/input/data/preprocess_train.pkl")
    else
      Except.ok (DataSource.makeCustom "/opt/ml/input/data/preprocess_train.pkl")
  else if dataset_name = "concat" then
    if fs.isfile "/opt/ml/input/data/train_concat5.pkl" then
      Except.ok (DataSource.loadPickle "/opt/ml/input/data/train_concat5.pkl")
    else
      Except.ok (DataSource.makeCustom "/opt/ml/input/data/train_concat5.pkl")
  else if dataset_name = "korquad" then
    if fs.isfile "/opt/ml/input/data/add_squad_kor_v1_2.pkl" then
      Except.ok (DataSource.loadPickle "/opt/ml/input/data/add_squad_kor_v1_2.pkl")
    else
      Except.ok (DataSource.makeCustom "/opt/ml/input/data/add_squad_kor_v1_2.pkl")
  else if dataset_name = "only_korquad" then
    Except.ok (DataSource.loadDataset "squad_kor_v1")
  else
    Except.error "dataset_name have to be one of [\x27basic\x27, \x27preprocessed\x27, \x27concat\x27, \x27korquad\x27, \x27only_korquad]"

/-- Whether an `Except` value is an error. -/
def isErr {ε α : Type} : Except ε α → Bool
  | .error _ => true
  | .ok _ => false

/-- C8: `get_data` raises a descriptive exception exactly when `dataset_name`
is not one of the five recognized modes, or when it is `"basic"` and the
expected dataset directory is absent; for the three pickle-backed modes an
absent pickle file does not raise but routes to the dataset-preparation
collaborator `make_custom_dataset`. -/
theorem c8_get_data_errors (fs : FileSystem) (dataset_name : String) :
    (isErr (get_data fs dataset_name) = true ↔
      (dataset_name ∉ ["basic", "preprocessed", "concat", "korquad", "only_korquad"] ∨
       (dataset_name = "basic" ∧ fs.isdir "/opt/ml/input/data/train_dataset" = false))) ∧
    (dataset_name ∉ ["basic", "preprocessed", "concat", "korquad", "only_korquad"] →
      get_data fs dataset_name = Except.error
        "dataset_name have to be one of [\x27basic\x27, \x27preprocessed\x27, \x27concat\x27, \x27korquad\x27, \x27only_korquad]") ∧
    (fs.isdir "/opt/ml/input/data/train_dataset" = false →
      get_data fs "basic" = Except.error "Set the data path to \x27/opt/ml/input/data/.\x27") ∧
    (fs.isfile "/opt/ml/input/data/preprocess_train.pkl" = false →
      get_data fs "preprocessed"
        = Except.ok (DataSource.makeCustom "/opt/ml/input/data/preprocess_train.pkl")) ∧
    (fs.isfile "/opt/ml/input/data/train_concat5.pkl" = false →
      get_data fs "concat"
        = Except.ok (DataSource.makeCustom "/opt/ml/input/data/train_concat5.pkl")) ∧
    (fs.isfile "/opt/ml/input/data/add_squad_kor_v1_2.pkl" = false →
      get_data fs "korquad"
        = Except.ok (DataSource.makeCustom "/opt/ml/input/data/add_squad_kor_v1_2.pkl")) := by
  refine ⟨?_, ?_, ?_, ?_, ?_, ?_⟩
  · by_cases h1 : dataset_name = "basic"
    · subst h1
      cases h : fs.isdir "/opt/ml/input/data/train_dataset" <;>
        simp [get_data, isErr, h]
    · by_cases h2 : dataset_name = "preprocessed"
      · subst h2
        cases h : fs.isfile "/opt/ml/input/data/preprocess_train.pkl" <;>
          simp [get_data, isErr, h]
      · by_cases h3 : dataset_name = "concat"
        · subst h3
          cases h : fs.isfile "/opt/ml/input/data/train_concat5.pkl" <;>
            simp [get_data, isErr, h]
        · by_cases h4 : dataset_name = "korquad"
          · subst h4
            cases h : fs.isfile "/opt/ml/input/data/add_squad_kor_v1_2.pkl" <;>
              simp [get_data, isErr, h]
          · by_cases h5 : dataset_name = "only_korquad"
            · subst h5
              simp [get_data, isErr]
            · simp [get_data, isErr, h1, h2, h3, h4, h5]
  · intro h
    simp only [List.mem_cons, List.not_mem_nil, or_false, not_or] at h
    obtain ⟨h1, h2, h3, h4, h5⟩ := h
    simp [get_data, h1, h2, h3, h4, h5]
  · intro h
    simp [get_data, h]
  · intro h
    simp [get_data, h]
  · intro h
    simp [get_data, h]
  · intro h
    simp [get_data, h]

/-- Witness for C8: with an empty file system, mode `"concat"` routes to
`make_custom_dataset` and an unknown mode raises the descriptive message. -/
theorem c8_get_data_errors_witness :
    get_data ⟨fun _ => false, fun _ => false⟩ "concat"
      = Except.ok (DataSource.makeCustom "/opt/ml/input/data/train_concat5.pkl") ∧
    get_data ⟨fun _ => false, fun _ => false⟩ "bogus"
      = Except.error
        "dataset_name have to be one of [\x27basic\x27, \x27preprocessed\x27, \x27concat\x27, \x27korquad\x27, \x27only_korquad]" :=
  ⟨(c8_get_data_errors ⟨fun _ => false, fun _ => false⟩ "concat").2.2.2.2.1 rfl,
   (c8_get_data_errors ⟨fun _ => false, fun _ => false⟩ "bogus").2.1 (by decide)⟩

/-! ### Training loop orchestration: `train_mrc` (train_mrc.py 291-333) -/

/-- Modelled from the spec: `AverageMeter` is imported from `utils_qa`, whose
source is not in the repository snapshot; per the spec it holds a cumulative
sum and count with `avg = sum / count` and a reset back to the zero state.
`update(loss, n)` accumulates the batch loss weighted by the batch size. -/
structure AverageMeter where
  total : ℚ
  count : Nat
deriving DecidableEq

def AverageMeter.update (m : AverageMeter) (v : ℚ) (n : Nat) : AverageMeter :=
  ⟨m.total + v * n, m.count + n⟩

def AverageMeter.avg (m : AverageMeter) : ℚ := m.total / (m.count : ℚ)

def AverageMeter.reset : AverageMeter := ⟨0, 0⟩

/-- The configuration fields of `train_mrc` that the loop control reads. -/
structure TrainConfig where
  logging_steps : Nat
  dataset_name : String
  output_dir : String
  run_name : String

/-- Oracle inputs of one loop iteration: the loss returned by
`training_per_step`, the batch size `len(batch["input_ids"])`, the scheduler's
current learning rate, and the `f1` / `exact_match` the validation pass would
report at this step. -/
structure StepInput where
  loss : ℚ
  batch_size : Nat
  lr : ℚ
  f1 : ℚ
  em : ℚ

/-- One `wandb.log` call: either the full metric mapping of a validation step
or the step-counter-only mapping of the other steps. -/
inductive LogEvent where
  | full : ℚ → ℚ → ℚ → ℚ → Nat → LogEvent
  | stepOnly : Nat → LogEvent
deriving DecidableEq

/-- The mutable state of the `train_mrc` loop, together with the externally
visible events: `saves` records each `torch.save` path in order, `logs` each
`wandb.log` call. -/
structure TrainState where
  prev_f1 : ℚ
  prev_em : ℚ
  global_steps : Nat
  meter : AverageMeter
  saves : List String
  logs : List LogEvent

/-- The checkpoint path of train_mrc.py 315-318: a fixed filename for the
`only_korquad` dataset mode, otherwise `<run_name>.pt`, under the output
directory. -/
def checkpoint_path (cfg : TrainConfig) : String :=
  if cfg.dataset_name = "only_korquad" then
    cfg.output_dir ++ "/koquard_pretrained_model.pt"
  else
    cfg.output_dir ++ "/" ++ cfg.run_name ++ ".pt"

/-- One iteration of the inner loop of `train_mrc` (train_mrc.py 299-330):
train on the batch, update the loss meter and the step counter; every
`logging_steps` global steps validate, checkpoint and update the best scores
when `f1` strictly improves, emit the full metric log, and reset the loss
meter; on every other step emit only the step counter. -/
def train_step (cfg : TrainConfig) (s : TrainState) (x : StepInput) : TrainState :=
  let meter2 := s.meter.update x.loss x.batch_size
  let gs := s.global_steps + 1
  if gs % cfg.logging_steps = 0 then
    let s2 : TrainState :=
      if s.prev_f1 < x.f1 then
        { s with prev_f1 := x.f1, prev_em := x.em,
                 saves := s.saves ++ [checkpoint_path cfg] }
      else s
    { s2 with global_steps := gs, meter := AverageMeter.reset,
              logs := s.logs ++ [LogEvent.full meter2.avg x.lr x.em x.f1 gs] }
  else
    { s with global_steps := gs, meter := meter2,
             logs := s.logs ++ [LogEvent.stepOnly gs] }

/-- Initial loop state (train_mrc.py 293-296): `prev_f1 = 0`, `prev_em = 0`,
`global_steps = 0`, fresh loss meter, nothing saved or logged yet. -/
def train_init : TrainState :=
  ⟨0, 0, 0, AverageMeter.reset, [], []⟩

/-- A whole run: fold the per-step transition over the oracle inputs of the
successive batches (epoch boundaries play no role in the claims below:
`global_steps`, the meter and the best scores carry across epochs). -/
def train_run (cfg : TrainConfig) (xs : List StepInput) : TrainState :=
  xs.foldl (train_step cfg) train_init

theorem train_step_prev (cfg : TrainConfig) (s : TrainState) (x : StepInput) :
    (((s.global_steps + 1) % cfg.logging_steps = 0 ∧ s.prev_f1 < x.f1) →
      (train_step cfg s x).prev_f1 = x.f1 ∧ (train_step cfg s x).prev_em = x.em) ∧
    (¬((s.global_steps + 1) % cfg.logging_steps = 0 ∧ s.prev_f1 < x.f1) →
      (train_step cfg s x).prev_f1 = s.prev_f1 ∧
      (train_step cfg s x).prev_em = s.prev_em) := by
  unfold train_step
  constructor
  · rintro ⟨h1, h2⟩
    simp [h1, h2]
  · intro h
    by_cases h1 : (s.global_steps + 1) % cfg.logging_steps = 0
    · have h2 : ¬ s.prev_f1 < x.f1 := fun h2 => h ⟨h1, h2⟩
      simp [h1, h2]
    · simp [h1]

theorem train_step_f1_le (cfg : TrainConfig) (s : TrainState) (x : StepInput) :
    s.prev_f1 ≤ (train_step cfg s x).prev_f1 := by
  rcases (train_step_prev cfg s x) with ⟨hyes, hno⟩
  by_cases h : (s.global_steps + 1) % cfg.logging_steps = 0 ∧ s.prev_f1 < x.f1
  · rw [(hyes h).1]
    exact le_of_lt h.2
  · rw [(hno h).1]

theorem train_fold_f1_le (cfg : TrainConfig) (xs : List StepInput) (s : TrainState) :
    s.prev_f1 ≤ (xs.foldl (train_step cfg) s).prev_f1 := by
  induction xs generalizing s with
  | nil => exact le_refl _
  | cons x rest ih =>
    exact le_trans (train_step_f1_le cfg s x) (ih (train_step cfg s x))

/-- C5 (amended): the best-score state starts at `prev_f1 = 0`, `prev_em = 0`
and is overwritten if and only if a validation pass at a logging step returns
an `f1` strictly greater than the current best; `f1` and `exact_match` are
always updated together, never independently; the stored `f1` is monotonically
non-decreasing over any run.  (The stored `exact_match` is *not* monotone —
see the counterexample theorem.) -/
theorem c5_best_state_update :
    train_init.prev_f1 = 0 ∧ train_init.prev_em = 0 ∧
    (∀ (cfg : TrainConfig) (s : TrainState) (x : StepInput),
      (((s.global_steps + 1) % cfg.logging_steps = 0 ∧ s.prev_f1 < x.f1) →
        (train_step cfg s x).prev_f1 = x.f1 ∧ (train_step cfg s x).prev_em = x.em) ∧
      (¬((s.global_steps + 1) % cfg.logging_steps = 0 ∧ s.prev_f1 < x.f1) →
        (train_step cfg s x).prev_f1 = s.prev_f1 ∧
        (train_step cfg s x).prev_em = s.prev_em)) ∧
    (∀ (cfg : TrainConfig) (xs : List StepInput) (s : TrainState),
      s.prev_f1 ≤ (xs.foldl (train_step cfg) s).prev_f1) :=
  ⟨rfl, rfl, train_step_prev, fun cfg xs s => train_fold_f1_le cfg xs s⟩

/-- Counterexample for C5 as frozen: the stored Exact-Match is not
monotonically non-decreasing.  With `logging_steps = 1`, a first validation
reporting `(f1, em) = (1, 5)` and a second reporting `(2, 3)`, the second
improves `f1`, so `em` is overwritten together with it and *decreases* from 5
to 3 over the run. -/
theorem c5_best_em_not_monotone :
    (train_run ⟨1, "basic", "out", "run"⟩ [⟨1, 1, 1, 1, 5⟩]).prev_em = 5 ∧
    (train_run ⟨1, "basic", "out", "run"⟩ [⟨1, 1, 1, 1, 5⟩, ⟨1, 1, 1, 2, 3⟩]).prev_em = 3 ∧
    ¬ (train_run ⟨1, "basic", "out", "run"⟩ [⟨1, 1, 1, 1, 5⟩]).prev_em ≤
        (train_run ⟨1, "basic", "out", "run"⟩ [⟨1, 1, 1, 1, 5⟩, ⟨1, 1, 1, 2, 3⟩]).prev_em := by
  refine ⟨?_, ?_, ?_⟩ <;> decide

/-- Witness for C5 at a concrete improving validation step. -/
theorem c5_best_state_update_witness :
    (train_step ⟨1, "basic", "out", "run"⟩ train_init ⟨1, 1, 1, 1, 5⟩).prev_f1 = 1 ∧
    (train_step ⟨1, "basic", "out", "run"⟩ train_init ⟨1, 1, 1, 1, 5⟩).prev_em = 5 :=
  (c5_best_state_update.2.2.1 ⟨1, "basic", "out", "run"⟩ train_init ⟨1, 1, 1, 1, 5⟩).1
    (by constructor <;> decide)

/-- C7: a checkpoint is written exactly when a validation `f1` strictly
exceeds the current best: in that case exactly one path is appended to the
save events — `output_dir ++ "/koquard_pretrained_model.pt"` when
`dataset_name = "only_korquad"` and `output_dir ++ "/" ++ run_name ++ ".pt"`
otherwise — and the best scores are updated; when the new `f1` is not
strictly greater (or the step is not a validation step) nothing is saved and
the best-score state is unchanged. -/
theorem c7_checkpoint_on_improvement (cfg : TrainConfig) (s : TrainState) (x : StepInput) :
    (((s.global_steps + 1) % cfg.logging_steps = 0 ∧ s.prev_f1 < x.f1) →
      (train_step cfg s x).saves = s.saves ++ [checkpoint_path cfg] ∧
      (train_step cfg s x).prev_f1 = x.f1 ∧ (train_step cfg s x).prev_em = x.em) ∧
    (¬((s.global_steps + 1) % cfg.logging_steps = 0 ∧ s.prev_f1 < x.f1) →
      (train_step cfg s x).saves = s.saves ∧
      (train_step cfg s x).prev_f1 = s.prev_f1 ∧
      (train_step cfg s x).prev_em = s.prev_em) ∧
    (cfg.dataset_name = "only_korquad" →
      checkpoint_path cfg = cfg.output_dir ++ "/koquard_pretrained_model.pt") ∧
    (¬ cfg.dataset_name = "only_korquad" →
      checkpoint_path cfg = cfg.output_dir ++ "/" ++ cfg.run_name ++ ".pt") := by
  refine ⟨?_, ?_, ?_, ?_⟩
  · rintro ⟨h1, h2⟩
    unfold train_step
    simp [h1, h2]
  · intro h
    unfold train_step
    by_cases h1 : (s.global_steps + 1) % cfg.logging_steps = 0
    · have h2 : ¬ s.prev_f1 < x.f1 := fun h2 => h ⟨h1, h2⟩
      simp [h1, h2]
    · simp [h1]
  · intro h
    simp [checkpoint_path, h]
  · intro h
    simp [checkpoint_path, h]

/-- Witness for C7: an improving validation step in `only_korquad` mode
appends exactly the fixed checkpoint path. -/
theorem c7_checkpoint_on_improvement_witness :
    (train_step ⟨1, "only_korquad", "out", "run"⟩ train_init ⟨1, 1, 1, 1, 5⟩).saves
      = [] ++ [checkpoint_path ⟨1, "only_korquad", "out", "run"⟩] ∧
    checkpoint_path ⟨1, "only_korquad", "out", "run"⟩
      = "out" ++ "/koquard_pretrained_model.pt" :=
  ⟨((c7_checkpoint_on_improvement ⟨1, "only_korquad", "out", "run"⟩ train_init
      ⟨1, 1, 1, 1, 5⟩).1 (by constructor <;> decide)).1,
   (c7_checkpoint_on_improvement ⟨1, "only_korquad", "out", "run"⟩ train_init
      ⟨1, 1, 1, 1, 5⟩).2.2.1 rfl⟩

/-- C9: the running loss average is reset exactly at global steps divisible by
`logging_steps`, in the same iteration in which the cumulative metrics — the
pre-reset loss average, the learning rate, the validation `exact_match` and
`f1`, and the step counter — are emitted to the tracking sink; at every other
step only the step counter is emitted, the loss meter keeps accumulating
without reset, and the best-score state and save events are untouched. -/
theorem c9_logging_and_reset (cfg : TrainConfig) (s : TrainState) (x : StepInput)
    (hpos : 0 < cfg.logging_steps) :
    ((s.global_steps + 1) % cfg.logging_steps = 0 →
      (train_step cfg s x).meter = AverageMeter.reset ∧
      (train_step cfg s x).logs = s.logs ++
        [LogEvent.full (AverageMeter.avg (s.meter.update x.loss x.batch_size))
          x.lr x.em x.f1 (s.global_steps + 1)]) ∧
    ((s.global_steps + 1) % cfg.logging_steps ≠ 0 →
      (train_step cfg s x).meter = s.meter.update x.loss x.batch_size ∧
      (train_step cfg s x).logs = s.logs ++ [LogEvent.stepOnly (s.global_steps + 1)] ∧
      (train_step cfg s x).prev_f1 = s.prev_f1 ∧
      (train_step cfg s x).prev_em = s.prev_em ∧
      (train_step cfg s x).saves = s.saves) := by
  constructor
  · intro h1
    unfold train_step
    by_cases h2 : s.prev_f1 < x.f1 <;> simp [h1, h2]
  · intro h1
    unfold train_step
    simp [h1]

/-- Witness for C9: with `logging_steps = 2`, step 1 is not a logging step —
only the counter is emitted and the meter keeps its accumulated value. -/
theorem c9_logging_and_reset_witness :
    (train_step ⟨2, "basic", "out", "run"⟩ train_init ⟨3, 2, 1, 10, 20⟩).meter
      = train_init.meter.update 3 2 ∧
    (train_step ⟨2, "basic", "out", "run"⟩ train_init ⟨3, 2, 1, 10, 20⟩).logs
      = train_init.logs ++ [LogEvent.stepOnly (train_init.global_steps + 1)] ∧
    (train_step ⟨2, "basic", "out", "run"⟩ train_init ⟨3, 2, 1, 10, 20⟩).prev_f1
      = train_init.prev_f1 ∧
    (train_step ⟨2, "basic", "out", "run"⟩ train_init ⟨3, 2, 1, 10, 20⟩).prev_em
      = train_init.prev_em ∧
    (train_step ⟨2, "basic", "out", "run"⟩ train_init ⟨3, 2, 1, 10, 20⟩).saves
      = train_init.saves :=
  (c9_logging_and_reset ⟨2, "basic", "out", "run"⟩ train_init ⟨3, 2, 1, 10, 20⟩
    (by decide)).2 (by decide)

end TrainMRC
